import Mathlib

/-!
# Verification of the Routing & Pattern-Retrieval Engine

A shallow embedding of the core of the repository:

* `router/core/weakness_matcher.py` — `WeaknessMatcher`
* `router/core/decision_engine.py` — `DecisionEngine`
* `optimizer/core/pattern_storage.py` — `PatternStorage`
* `optimizer/rag/vector_store.py` — `VectorStore`

Python floats are modelled as rationals (`ℚ`), Python strings as Lean
`String`, Python `None`-able arguments as `Option`, raised-and-caught
exceptions as explicit `Option`/fallback values.  Each definition mirrors
one source function; the theorems at the end settle the specification
claims against these definitions.
-/

namespace ZeroTrain

/-! ## String containment

Python's `sub in s` test is exact (case-sensitive) substring containment
over code points.  We model strings through their character lists. -/

/-- Predicate `isSubstr n h` decides whether the character list `n` occurs
contiguously inside `h` (Python's `n in h` on strings). -/
def isSubstr (n : List Char) : List Char → Bool
  | [] => n.isEmpty
  | c :: t => n.isPrefixOf (c :: t) || isSubstr n t

/-- Python's `needle in hay` for strings. -/
def strIn (needle hay : String) : Bool :=
  isSubstr needle.toList hay.toList

/-- Python's `s[:n]` (first `n` code points). -/
def pyTake (n : Nat) (s : String) : String :=
  (s.toList.take n).asString

/-! ## Weakness matcher (`router/core/weakness_matcher.py`)

A weakness record carries a stable id, descriptive fields, a frequency in
`[0,1]` and a `triggers` block of entity types / keywords / question
patterns.  `frequency` is read with `.get('frequency', 0)` in the source;
records always carry the field in the curated table, so we model it as a
plain field. -/

structure Triggers where
  entity_types : List String
  keywords : List String
  question_patterns : List String
  deriving Repr, DecidableEq

structure Weakness where
  weakness_id : String
  category : String
  subcategory : String
  description : String
  severity : String
  frequency : ℚ
  prompt_addition : String
  triggers : Triggers
  deriving Repr, DecidableEq

/-- Embeds `WeaknessMatcher._calculate_match_score` (weakness_matcher.py:101-140).

The source computes `question_lower` but never uses it: all containment
tests run on the raw question.  `if entity_type and entity_types:` is
Python truthiness: the entity bonus needs a non-empty `entity_type`
string and a non-empty `entity_types` list. -/
def calculateMatchScore (question : String) (w : Weakness)
    (entityType : Option String) : ℚ :=
  let score : ℚ := 0
  -- entity type match (30% weight)
  let score :=
    match entityType with
    | some et =>
        if et ≠ "" ∧ w.triggers.entity_types ≠ [] ∧ et ∈ w.triggers.entity_types then
          score + 30/100
        else score
    | none => score
  -- keyword match (40% weight)
  let keywords := w.triggers.keywords
  let matchedKeywords := (keywords.filter (fun kw => strIn kw question)).length
  let score :=
    if keywords ≠ [] ∧ matchedKeywords > 0 then
      score + 40/100 * min 1 ((matchedKeywords : ℚ) / keywords.length)
    else score
  -- question pattern match (30% weight)
  let pats := w.triggers.question_patterns
  let matchedPats := (pats.filter (fun pat => strIn pat question)).length
  let score :=
    if pats ≠ [] ∧ matchedPats > 0 then
      score + 30/100 * min 1 ((matchedPats : ℚ) / pats.length)
    else score
  score

/-- One entry of the list returned by `match_weaknesses`: the projected
weakness fields plus the computed `match_score`. -/
structure WeaknessMatch where
  weakness_id : String
  category : String
  subcategory : String
  description : String
  severity : String
  frequency : ℚ
  prompt_addition : String
  match_score : ℚ
  deriving Repr, DecidableEq

/-- The dict built at weakness_matcher.py:78-87. -/
def mkWeaknessMatch (w : Weakness) (score : ℚ) : WeaknessMatch :=
  { weakness_id := w.weakness_id
    category := w.category
    subcategory := w.subcategory
    description := w.description
    severity := w.severity
    frequency := w.frequency
    prompt_addition := w.prompt_addition
    match_score := score }

/-- Comparator of the sort at weakness_matcher.py:90:
`matches.sort(key=lambda x: (x['match_score'], x['frequency']), reverse=True)`.
Python's sort is stable and `reverse=True` keeps equal keys in original
order, which is exactly a stable merge sort with this `le`. -/
def matchGE (a b : WeaknessMatch) : Bool :=
  decide (b.match_score < a.match_score ∨
    (b.match_score = a.match_score ∧ b.frequency ≤ a.frequency))

/-- Embeds `WeaknessMatcher.match_weaknesses` (weakness_matcher.py:48-99). -/
def matchWeaknesses (weaknesses : List Weakness) (question : String)
    (entityType : Option String) (topK : Nat) (minFrequency : ℚ) :
    List WeaknessMatch :=
  let ms := weaknesses.filterMap (fun w =>
    if w.frequency < minFrequency then none
    else
      let score := calculateMatchScore question w entityType
      if score > 0 then some (mkWeaknessMatch w score) else none)
  let sorted := ms.mergeSort matchGE
  sorted.take topK

/-! ## Decision engine (`router/core/decision_engine.py`)

The engine state after construction: the flattened entity-name set
(`all_entities_set`), the hard-coded category keyword table and
out-of-database keyword set from `__init__`, the weakness table held by
its `WeaknessMatcher`, and the two matcher parameters read from settings
(`WEAKNESS_TOP_K`, `WEAKNESS_MIN_FREQUENCY`).  Python iterates `set`s in
an unspecified order and `dict`s in insertion order; we fix an iteration
order by using lists, which every claim below is stated to tolerate. -/

structure Engine where
  allEntities : List String
  oodKeywords : List String
  categoryKeywords : List (String × List String)
  weaknesses : List Weakness
  weaknessTopK : Nat
  weaknessMinFrequency : ℚ

/-- The `entity_name[:min(3, len(entity_name))]` blocklist test of Strategy 4
(decision_engine.py:200-205): entities shorter than 3 code points are
skipped, then the 3-point prefix must be at least 2 points long (always
true here), occur in the question, and avoid the generic-word blocklist. -/
def partialEntityMatch (question entity : String) : Bool :=
  if entity.length ≥ 3 then
    let prefixStr := pyTake (min 3 entity.length) entity
    prefixStr.length ≥ 2 && strIn prefixStr question &&
      !(["检查", "手术", "疫苗"].contains prefixStr)
  else false

/-- Embeds `DecisionEngine.should_use_rag` (decision_engine.py:161-208).

The source computes `question_lower` but never uses it, and never reads
`min_confidence`; both are kept to mirror the signature. -/
def shouldUseRag (E : Engine) (question : String) (minConfidence : ℚ) :
    Bool × String × ℚ :=
  -- Strategy 1: exact entity name containment
  match E.allEntities.find? (fun e => strIn e question) with
  | some e => (true, "Exact match: '" ++ e ++ "'", 95/100)
  | none =>
    -- Strategy 2: known out-of-database topics
    match E.oodKeywords.find? (fun o => strIn o question) with
    | some o => (false, "Known OOD topic: '" ++ o ++ "'", 90/100)
    | none =>
      -- Strategy 3: category keywords
      let matched := E.categoryKeywords.filter
        (fun ck => ck.2.any (fun kw => strIn kw question))
      if matched.length ≥ 2 then
        (true, "Multiple category matches: " ++
          String.intercalate ", " (matched.map Prod.fst), 75/100)
      else if matched.length = 1 then
        (true, "Category match: " ++ ((matched.map Prod.fst).headD ""), 65/100)
      else
        -- Strategy 4: partial entity matches
        match E.allEntities.find? (fun e => partialEntityMatch question e) with
        | some e => (true, "Partial match: '" ++ e ++ "'", 60/100)
        | none =>
          -- Strategy 5: default
          (true, "Uncertain - defer to threshold filter", 50/100)

/-- The routing-decision dict (decision_engine.py:262-270), minus the
`last_reload_check` timestamp, which is wall-clock I/O. -/
structure RoutingDecision where
  use_rag : Bool
  rag_reason : String
  rag_confidence : ℚ
  weakness_patterns : List WeaknessMatch
  has_weaknesses : Bool
  routing_tier : String

/-- Embeds `DecisionEngine.get_routing_decision` (decision_engine.py:210-279),
pure part: the optional `check_for_updates` hot-reload call at lines
234-238 only re-reads the two data files and is modelled by quantifying
over the engine state it produces. -/
def getRoutingDecision (E : Engine) (question : String)
    (entityType : Option String) (minConfidence : ℚ) : RoutingDecision :=
  let weaknessPatterns :=
    matchWeaknesses E.weaknesses question entityType E.weaknessTopK
      E.weaknessMinFrequency
  let hasWeaknesses := weaknessPatterns.length > 0
  let (useRag, ragReason, ragConfidence) :=
    if !hasWeaknesses then
      shouldUseRag E question minConfidence
    else
      (true,
       "Supplemental context for weakness: " ++
         ((weaknessPatterns.map (·.weakness_id)).headD ""),
       85/100)
  { use_rag := useRag
    rag_reason := ragReason
    rag_confidence := ragConfidence
    weakness_patterns := weaknessPatterns
    has_weaknesses := hasWeaknesses
    routing_tier :=
      if hasWeaknesses then "weakness"
      else if useRag then "rag" else "baseline" }

/-! ## Construction and data-file loading (C8)

`WeaknessMatcher._load_weaknesses` (weakness_matcher.py:34-46) and
`DecisionEngine._load_entities` (decision_engine.py:106-117) read a JSON
file.  We model the observable state of such a file: missing, present
but unparseable, or parsed to a payload. -/

inductive FileState (α : Type) where
  | missing
  | malformed
  | parsed (payload : α)

/-- Embeds `WeaknessMatcher._load_weaknesses`: a missing file logs a warning and
yields `[]`; a parse failure is caught, logged, and yields `[]`; a parsed
JSON object contributes `data.get('weaknesses', [])` (the payload is
`none` when the object has no `weaknesses` key). -/
def loadWeaknesses (f : FileState (Option (List Weakness))) : List Weakness :=
  match f with
  | .missing => []
  | .malformed => []
  | .parsed w => w.getD []

/-- Embeds `WeaknessMatcher.__init__` (weakness_matcher.py:22-32): construction
never raises — it stores whatever `_load_weaknesses` returned.  The
`Except` wrapper records whether construction failed (it never does). -/
def mkWeaknessMatcher (f : FileState (Option (List Weakness))) :
    Except String (List Weakness) :=
  .ok (loadWeaknesses f)

/-- Embeds `DecisionEngine._load_entities`: a missing file logs a warning and
yields the four empty default categories; a parse failure is caught,
logged, and yields the same defaults. -/
def loadEntities (f : FileState (List (String × List String))) :
    List (String × List String) :=
  match f with
  | .missing =>
      [("diseases", []), ("examinations", []), ("surgeries", []), ("vaccines", [])]
  | .malformed =>
      [("diseases", []), ("examinations", []), ("surgeries", []), ("vaccines", [])]
  | .parsed d => d

/-- Embeds `DecisionEngine.__init__` entity/weakness loading (decision_engine.py:
43-57): construction never raises on missing or malformed data files. -/
def mkDecisionEngineData
    (entityFile : FileState (List (String × List String)))
    (weaknessFile : FileState (Option (List Weakness))) :
    Except String (List (String × List String) × List Weakness) :=
  .ok (loadEntities entityFile, loadWeaknesses weaknessFile)

/-! ## FAISS flat L2 index (model shared by both stores)

`faiss.IndexFlatL2` holds fixed-dimension float vectors and answers
`search(q, k)` with the `k` rows of smallest squared L2 distance, in
ascending distance order, ties broken by lower row index.  When fewer
than `k` rows exist, FAISS pads the result arrays with label `-1` and the
heap-neutral distance `FLT_MAX`. -/

abbrev Vec := List ℚ

/-- Squared L2 distance (what `IndexFlatL2` reports). -/
def l2sq (a b : Vec) : ℚ :=
  ((a.zip b).map (fun p => (p.1 - p.2) ^ 2)).sum

/-- IEEE-754 single-precision `FLT_MAX` (`= 2^128 - 2^104`), the
sentinel distance FAISS leaves on padded (label `-1`) result slots. -/
def fltMax : ℚ := 340282346638528859811704183484516925440

structure FaissIndex where
  dim : Nat
  rows : List Vec
  deriving Repr, DecidableEq

/-- Candidate comparator: ascending distance.  Row-index ties are kept in
insertion order by sort stability. -/
def distLE (a b : ℚ × Int) : Bool := decide (a.1 ≤ b.1)

/-- Models `index.search(q, k)`: the `(distance, label)` result rows.  All rows
are ranked by ascending distance (stable in row order), the best `k` are
kept, and missing slots are padded with `(FLT_MAX, -1)`. -/
def faissSearch (idx : FaissIndex) (q : Vec) (k : Nat) : List (ℚ × Int) :=
  let ranked :=
    (idx.rows.enum.map (fun p => (l2sq q p.2, (p.1 : Int)))).mergeSort distLE
  ranked.take k ++ List.replicate (k - ranked.length) (fltMax, -1)

/-- Python list indexing: non-negative indices from the front, negative
indices from the back, `none` for an out-of-range access (`IndexError`). -/
def pyGet? (l : List α) (i : Int) : Option α :=
  if 0 ≤ i then l.get? i.toNat
  else if (-i).toNat ≤ l.length then l.get? (l.length - (-i).toNat)
  else none

/-! ## Pattern store (`optimizer/core/pattern_storage.py`) -/

/-- One stored error pattern (the dict documented at
pattern_storage.py:77-84).  `category` and `severity` are read with
`.get(..., default)` in the source, so records may lack them. -/
structure PatternRec where
  description : String
  guideline : String
  category : Option String
  error_type : String
  severity : Option String
  frequency : Int
  examples : List String
  id : Option Nat
  deriving Repr, DecidableEq

/-- In-memory state of `PatternStorage`: the pattern list, the optional
FAISS index, and the `RAG_RELEVANCE_THRESHOLD` setting consulted when no
threshold argument is passed. -/
structure PatternStorage where
  patterns : List PatternRec
  index : Option FaissIndex
  ragRelevanceThreshold : ℚ
  deriving Repr, DecidableEq

def rowCount : Option FaissIndex → Nat
  | none => 0
  | some i => i.rows.length

/-- Embeds `PatternStorage.add_pattern` (pattern_storage.py:72-110).  The whole
body runs under `try/except`; `embed = none` models a raised embedding
error.  `self.index` is assigned *before* `self.index.add`, so a
dimension-mismatch failure of `add` (modelled by the `if`) leaves a fresh
empty index behind but appends nothing.  `_save` catches its own
exceptions and never touches in-memory state, so it is the identity
here. -/
def addPattern (embed : String → Option Vec) (st : PatternStorage)
    (p : PatternRec) : PatternStorage :=
  match embed p.description with
  | none => st
  | some emb =>
    let idx : FaissIndex :=
      match st.index with
      | none => { dim := emb.length, rows := [] }
      | some i => i
    let stMid := { st with index := some idx }
    if emb.length = idx.dim then
      let p' := { p with id := some st.patterns.length }
      { stMid with
          index := some { idx with rows := idx.rows ++ [emb] }
          patterns := st.patterns ++ [p'] }
    else stMid

/-- Embeds `Embedder.embed_batch` (embedder.py:106-156): each item is embedded
under its own `try/except`; a failed item is replaced by a zero vector of
the configured `EMBEDDING_DIMENSION`.  The call never raises and always
returns one vector per input text. -/
def embedBatch (embed : String → Option Vec) (dim : Nat)
    (texts : List String) : List Vec :=
  texts.map (fun t => (embed t).getD (List.replicate dim 0))

/-- Embeds `PatternStorage.add_patterns_batch` (pattern_storage.py:112-144).
After the (never-failing) batch embedding, `self.index` is assigned
before `np.array`/`self.index.add`, whose failures (ragged embedding
list, dimension mismatch) are caught at line 143 — modelled by the
`if`. -/
def addPatternsBatch (embed : String → Option Vec) (dim : Nat)
    (st : PatternStorage) (ps : List PatternRec) : PatternStorage :=
  if ps.isEmpty then st
  else
    let embs := embedBatch embed dim (ps.map (·.description))
    let d0 := (embs.headD []).length
    let idx : FaissIndex :=
      match st.index with
      | none => { dim := d0, rows := [] }
      | some i => i
    let stMid := { st with index := some idx }
    if embs.all (fun e => e.length = d0) ∧ d0 = idx.dim then
      let ps' := ps.enum.map
        (fun q => { q.2 with id := some (st.patterns.length + q.1) })
      { stMid with
          index := some { idx with rows := idx.rows ++ embs }
          patterns := st.patterns ++ ps' }
    else stMid

/-- The table `severity_order` of pattern_storage.py:186, read with
`.get(s, 1)` (pattern_storage.py:186-187). -/
def severityOrder (s : String) : Nat :=
  if s = "critical" then 3 else if s = "major" then 2 else 1

/-- The category `continue` test at pattern_storage.py:198-201:
`if category and pattern_category != category and pattern_category != 'general'`.
Python truthiness: `none` and the empty string both disable the filter. -/
def catSkipB (category : Option String) (patCat : String) : Bool :=
  match category with
  | some c => decide (c ≠ "") && decide (patCat ≠ c) && decide (patCat ≠ "general")
  | none => false

/-- One retrieved pattern: the stored record (a per-call copy in the
source) plus the injected `relevance_score`. -/
structure RetrievedPattern where
  pattern : PatternRec
  relevance_score : ℚ
  deriving Repr, DecidableEq

/-- The candidate loop of `retrieve_relevant` (pattern_storage.py:189-210).
The `pyGet? … = none` branch models an `IndexError`, unreachable for
labels produced by `faissSearch` on a non-empty pattern list. -/
def retrieveLoop (pats : List PatternRec) (thr : ℚ) (category : Option String)
    (minSevLevel : Nat) (k : Nat) :
    List (ℚ × Int) → List RetrievedPattern → List RetrievedPattern
  | [], acc => acc
  | (dist, i) :: rest, acc =>
    if i < (pats.length : Int) then
      match pyGet? pats i with
      | none => acc
      | some pat =>
        let rel : ℚ := 1 / (1 + dist)
        if 0 < thr ∧ rel < thr then
          retrieveLoop pats thr category minSevLevel k rest acc
        else if catSkipB category (pat.category.getD "general") then
          retrieveLoop pats thr category minSevLevel k rest acc
        else if severityOrder (pat.severity.getD "minor") < minSevLevel then
          retrieveLoop pats thr category minSevLevel k rest acc
        else
          let acc' := acc ++ [⟨pat, rel⟩]
          if k ≤ acc'.length then acc'
          else retrieveLoop pats thr category minSevLevel k rest acc'
    else retrieveLoop pats thr category minSevLevel k rest acc

/-- Embeds `PatternStorage.retrieve_relevant` (pattern_storage.py:146-221).
`embed = none` models the embedding call raising; the surrounding
`try/except` turns that into an empty result. -/
def retrieveRelevant (embed : String → Option Vec) (st : PatternStorage)
    (question : String) (k : Nat) (category : Option String)
    (minSeverity : String) (threshold : Option ℚ) : List RetrievedPattern :=
  match st.index with
  | none => []
  | some idx =>
    if st.patterns.length = 0 then []
    else
      let thr := threshold.getD st.ragRelevanceThreshold
      match embed question with
      | none => []
      | some qv =>
        let searchK := min (k * 3) st.patterns.length
        let cands := faissSearch idx qv searchK
        retrieveLoop st.patterns thr category (severityOrder minSeverity) k
          cands []

/-! ## Vector store (`optimizer/rag/vector_store.py`) -/

/-- Values stored in the modelled Python dicts (entity metadata). -/
inductive PVal where
  | str (s : String)
  | num (q : ℚ)
  deriving Repr, DecidableEq

abbrev PyDict := List (String × PVal)

/-- In-memory `VectorStore` state after `build` or `load`: metadata dicts
and texts parallel to the index rows. -/
structure VectorStore where
  index : Option FaissIndex
  metadata : List PyDict
  texts : List String
  deriving Repr, DecidableEq

/-- One entry of `VectorStore.search`'s result list
(vector_store.py:102-107): the metadata dict merged with the matched
text, raw distance, and `1/(1+d)` similarity. -/
structure VSResult where
  meta : PyDict
  content : String
  distance : ℚ
  similarity : ℚ
  deriving Repr, DecidableEq

/-- Embeds `VectorStore.search` (vector_store.py:77-110).  Here `none` models the
`RuntimeError` on an unbuilt store.  The source guards candidates with
`if idx < len(self.metadata)` only — a FAISS padding label `-1` passes
that guard and is then resolved by Python negative indexing
(`self.metadata[-1]`, `self.texts[-1]`). -/
def searchVS (embed : String → Vec) (vs : VectorStore) (query : String)
    (k : Nat) : Option (List VSResult) :=
  match vs.index with
  | none => none
  | some idx =>
    let qv := embed query
    let pairs := faissSearch idx qv k
    some (pairs.filterMap (fun di =>
      if di.2 < (vs.metadata.length : Int) then
        match pyGet? vs.metadata di.2, pyGet? vs.texts di.2 with
        | some m, some t => some ⟨m, t, di.1, 1 / (1 + di.1)⟩
        | _, _ => none
      else none))

/-! ## Heap view of `retrieve_relevant` (frame effect, C10)

The functional model above returns result *values*; to settle whether
`retrieve_relevant` mutates the stored dicts we re-embed the same loop at
the level of Python object identity.  The heap is a list of dict cells
addressed by position; `self.patterns` is a list of cell addresses;
`dict.copy()` allocates a fresh cell; `pattern['relevance_score'] = v`
writes to a cell in place. -/

/-- Python `d.get(key)` on a modelled dict. -/
def dictGet? (d : PyDict) (key : String) : Option PVal :=
  (d.find? (fun kv => kv.1 = key)).map (·.2)

/-- Python `d[key] = v`: overwrite in place, else append the new key. -/
def dictSet (d : PyDict) (key : String) (v : PVal) : PyDict :=
  if (d.find? (fun kv => kv.1 = key)).isSome then
    d.map (fun kv => if kv.1 = key then (key, v) else kv)
  else d ++ [(key, v)]

/-- Python `pattern.get('category', 'general')` on a dict cell. -/
def dictCategory (d : PyDict) : PVal :=
  (dictGet? d "category").getD (.str "general")

/-- The category `continue` test, dict-cell version (a non-string stored
category compares unequal to every string, as in Python). -/
def catSkipV (category : Option String) (pc : PVal) : Bool :=
  match category with
  | some c => decide (c ≠ "") && decide (pc ≠ .str c) && decide (pc ≠ .str "general")
  | none => false

/-- Python `severity_order.get(pattern.get('severity', 'minor'), 1)` on a dict
cell. -/
def dictSevLevel (d : PyDict) : Nat :=
  match dictGet? d "severity" with
  | some (.str s) => severityOrder s
  | _ => 1

/-- The `PatternStorage` state with explicit object identity: `heap` is the
set of live dict cells, `patternAddrs` the addresses held by
`self.patterns`. -/
structure StorageH where
  heap : List PyDict
  patternAddrs : List Nat
  index : Option FaissIndex
  ragRelevanceThreshold : ℚ

/-- The candidate loop of `retrieve_relevant`, heap version.  Each
candidate first allocates `self.patterns[idx].copy()` (a fresh cell) and
writes `relevance_score` into that copy, exactly as the source does
before any filter runs; accepted results are the addresses of those
copies. -/
def retrieveLoopH (patternAddrs : List Nat) (thr : ℚ)
    (category : Option String) (minSevLevel : Nat) (k : Nat) :
    List (ℚ × Int) → List PyDict → List Nat → List PyDict × List Nat
  | [], heap, acc => (heap, acc)
  | (dist, i) :: rest, heap, acc =>
    if i < (patternAddrs.length : Int) then
      match pyGet? patternAddrs i with
      | none => (heap, acc)
      | some addr =>
        match heap.get? addr with
        | none => (heap, acc)
        | some d =>
          let rel : ℚ := 1 / (1 + dist)
          let copyAddr := heap.length
          let heap' := (heap ++ [d]).set copyAddr (dictSet d "relevance_score" (.num rel))
          if 0 < thr ∧ rel < thr then
            retrieveLoopH patternAddrs thr category minSevLevel k rest heap' acc
          else if catSkipV category (dictCategory d) then
            retrieveLoopH patternAddrs thr category minSevLevel k rest heap' acc
          else if dictSevLevel d < minSevLevel then
            retrieveLoopH patternAddrs thr category minSevLevel k rest heap' acc
          else
            let acc' := acc ++ [copyAddr]
            if k ≤ acc'.length then (heap', acc')
            else retrieveLoopH patternAddrs thr category minSevLevel k rest heap' acc'
    else retrieveLoopH patternAddrs thr category minSevLevel k rest heap acc

/-- Embeds `PatternStorage.retrieve_relevant`, heap version: returns the state
after the call together with the addresses of the returned dicts. -/
def retrieveRelevantH (embed : String → Option Vec) (st : StorageH)
    (question : String) (k : Nat) (category : Option String)
    (minSeverity : String) (threshold : Option ℚ) : StorageH × List Nat :=
  match st.index with
  | none => (st, [])
  | some idx =>
    if st.patternAddrs.length = 0 then (st, [])
    else
      let thr := threshold.getD st.ragRelevanceThreshold
      match embed question with
      | none => (st, [])
      | some qv =>
        let searchK := min (k * 3) st.patternAddrs.length
        let cands := faissSearch idx qv searchK
        let r := retrieveLoopH st.patternAddrs thr category
          (severityOrder minSeverity) k cands st.heap []
        ({ st with heap := r.1 }, r.2)

/-! ## Claim-worded score formula (for comparison against the source)

Claim C3 words the entity bonus as «0.30 if `entity_type` is provided and
is a member of `triggers.entity_types`» — with no non-emptiness caveat on
the provided string.  This definition transcribes those words; the source
function `calculateMatchScore` is compared against it below. -/
def claimC3Score (question : String) (w : Weakness) (et : Option String) : ℚ :=
  (match et with
   | some s => if s ∈ w.triggers.entity_types then (30/100 : ℚ) else 0
   | none => 0)
  + 40/100 * min 1
      (((w.triggers.keywords.filter (fun kw => strIn kw question)).length : ℚ) /
        (w.triggers.keywords.length : ℚ))
  + 30/100 * min 1
      (((w.triggers.question_patterns.filter (fun p => strIn p question)).length : ℚ) /
        (w.triggers.question_patterns.length : ℚ))

/-! ## Concrete fixtures used by example-style theorems -/

/-- The weakness of the spec scenario: only trigger is the keyword
"糖尿病". -/
def fixW1 : Weakness :=
  { weakness_id := "W1", category := "factual", subcategory := "sub",
    description := "desc", severity := "major", frequency := 1/2,
    prompt_addition := "note",
    triggers := { entity_types := [], keywords := ["糖尿病"],
                  question_patterns := [] } }

/-- A degenerate weakness whose trigger table lists the empty string as
an entity type. -/
def fixWEnt : Weakness :=
  { weakness_id := "W2", category := "factual", subcategory := "sub",
    description := "desc", severity := "major", frequency := 1/2,
    prompt_addition := "note",
    triggers := { entity_types := [""], keywords := [],
                  question_patterns := [] } }

/-- A small fully-loaded engine state. -/
def fixEngine : Engine :=
  { allEntities := ["糖尿病"], oodKeywords := ["婴儿摇晃"],
    categoryKeywords := [("diseases", ["症状"])],
    weaknesses := [fixW1], weaknessTopK := 2, weaknessMinFrequency := 15/100 }

/-- A stored pattern with category `surgeries`. -/
def fixPattern : PatternRec :=
  { description := "desc", guideline := "guide", category := some "surgeries",
    error_type := "factual_error", severity := some "major", frequency := 1,
    examples := [], id := some 0 }

/-- A one-pattern store whose index holds the single 1-dimensional
vector `[0]`. -/
def fixStore : PatternStorage :=
  { patterns := [fixPattern],
    index := some { dim := 1, rows := [[0]] },
    ragRelevanceThreshold := 0 }

/-- A one-row built vector store. -/
def fixVS : VectorStore :=
  { index := some { dim := 1, rows := [[0]] },
    metadata := [[("name", .str "m0")]], texts := ["t0"] }

/-- A one-pattern heap-view store: one dict cell, referenced by
`patternAddrs = [0]`. -/
def fixStoreH : StorageH :=
  { heap := [[("description", .str "desc"), ("category", .str "surgeries"),
              ("severity", .str "major")]],
    patternAddrs := [0],
    index := some { dim := 1, rows := [[0]] },
    ragRelevanceThreshold := 0 }

/-!
# Theorems
-/

/-! ### String lemmas -/

theorem isSubstr_append_self (n p : List Char) : isSubstr n (p ++ n) = true := by
  induction p with
  | nil =>
    cases n with
    | nil => rfl
    | cons c t =>
      simp only [List.nil_append, isSubstr, Bool.or_eq_true]
      left
      exact List.isPrefixOf_iff_prefix.mpr (List.prefix_refl _)
  | cons c t ih =>
    simp only [List.cons_append, isSubstr, Bool.or_eq_true]
    right
    exact ih

theorem strIn_append_left (pre sub : String) : strIn sub (pre ++ sub) = true := by
  unfold strIn
  have h : (pre ++ sub).toList = pre.toList ++ sub.toList := by
    simp [String.toList]
  rw [h]
  exact isSubstr_append_self _ _

/-! ### C8 — construction on missing/malformed data files -/

/-- C8 counterexample: at the concrete input «weakness file missing,
entity file missing», construction succeeds and an empty weakness table
and the default empty entity categories stand in for the real data —
the claimed fatal construction failure does not happen. -/
theorem C8_counterexample :
    mkWeaknessMatcher .missing = .ok [] ∧
    mkDecisionEngineData .missing .missing =
      .ok ([("diseases", []), ("examinations", []), ("surgeries", []),
            ("vaccines", [])], []) :=
  ⟨rfl, rfl⟩

/-- C8 (amended): if the weakness table file or the entity-name file is
missing or malformed, construction of the WeaknessMatcher /
DecisionEngine still succeeds: the loaders log and fall back to an empty
weakness table and the four empty default entity categories. -/
theorem C8_construction_falls_back
    (wf : FileState (Option (List Weakness)))
    (ef : FileState (List (String × List String)))
    (hw : wf = .missing ∨ wf = .malformed)
    (he : ef = .missing ∨ ef = .malformed) :
    mkWeaknessMatcher wf = .ok [] ∧
    mkDecisionEngineData ef wf =
      .ok ([("diseases", []), ("examinations", []), ("surgeries", []),
            ("vaccines", [])], []) := by
  rcases hw with hw | hw <;> rcases he with he | he <;>
    subst hw <;> subst he <;> exact ⟨rfl, rfl⟩

/-- Witness for C8: the amended theorem applied at the concrete
missing-file inputs. -/
theorem C8_witness :
    mkWeaknessMatcher (.malformed : FileState (Option (List Weakness))) = .ok [] :=
  (C8_construction_falls_back .malformed .missing (Or.inr rfl) (Or.inl rfl)).1

/-! ### C9 — retrieval degrades to an empty result -/

/-- C9: `retrieve_relevant` returns the empty list when the embedding
call raises (`embed question = none`), when the store holds no patterns,
and when there is no index — it never propagates the failure. -/
theorem C9_retrieve_error_handling (embed : String → Option Vec)
    (st : PatternStorage) (q : String) (k : Nat) (cat : Option String)
    (minSev : String) (thr : Option ℚ) :
    (embed q = none → retrieveRelevant embed st q k cat minSev thr = []) ∧
    (st.patterns = [] → retrieveRelevant embed st q k cat minSev thr = []) ∧
    (st.index = none → retrieveRelevant embed st q k cat minSev thr = []) := by
  refine ⟨fun h => ?_, fun h => ?_, fun h => ?_⟩
  · cases hidx : st.index with
    | none => simp [retrieveRelevant, hidx]
    | some i =>
      by_cases hp : st.patterns.length = 0 <;>
        simp [retrieveRelevant, hidx, hp, h]
  · cases hidx : st.index with
    | none => simp [retrieveRelevant, hidx]
    | some i => simp [retrieveRelevant, hidx, h]
  · simp [retrieveRelevant, h]

/-- Witness for C9: a failing embedder on the concrete one-pattern store
yields the empty result. -/
theorem C9_witness :
    retrieveRelevant (fun _ => none) fixStore "q" 5 none "minor" (some (1/2)) = [] :=
  (C9_retrieve_error_handling (fun _ => none) fixStore "q" 5 none "minor"
    (some (1/2))).1 rfl

/-! ### C3 — weakness match score -/

theorem ite_add_shape (c : Prop) [Decidable c] (a t : ℚ) :
    (if c then a + t else a) = a + if c then t else 0 := by
  by_cases h : c <;> simp [h]

/-- The guarded trigger term of `_calculate_match_score` equals the
unguarded `weight * min 1 (matched/total)`: when the guard fails the
matched count is zero, so the unguarded term vanishes as well. -/
theorem trigger_term_eq (c : ℚ) (L : List String) (q : String) :
    (if L ≠ [] ∧ 0 < (L.filter (fun s => strIn s q)).length
     then c * min 1 (((L.filter (fun s => strIn s q)).length : ℚ) / L.length)
     else 0)
    = c * min 1 (((L.filter (fun s => strIn s q)).length : ℚ) / L.length) := by
  by_cases h : L ≠ [] ∧ 0 < (L.filter (fun s => strIn s q)).length
  · simp [h]
  · push_neg at h
    rcases eq_or_ne L [] with hL | hL
    · subst hL
      simp
    · have h0 : (L.filter (fun s => strIn s q)).length = 0 := by
        exact Nat.le_antisymm (h hL) (Nat.zero_le _)
      simp [h0]

/-- C3 (amended): the weakness match score is
`e + 0.40 * min 1 (mk/K) + 0.30 * min 1 (mp/P)` where `e = 0.30` exactly
when a **non-empty** `entity_type` string is provided and is a member of
`triggers.entity_types` (a division by a zero total counts as a zero
term); in particular a weakness whose only trigger is one keyword
occurring in the question scores exactly `0.40`. -/
theorem C3_match_score_formula (q : String) (w : Weakness) (et : Option String) :
    calculateMatchScore q w et =
      (match et with
       | some s => if s ≠ "" ∧ s ∈ w.triggers.entity_types then (30/100 : ℚ) else 0
       | none => 0)
      + 40/100 * min 1
          (((w.triggers.keywords.filter (fun kw => strIn kw q)).length : ℚ) /
            (w.triggers.keywords.length : ℚ))
      + 30/100 * min 1
          (((w.triggers.question_patterns.filter (fun p => strIn p q)).length : ℚ) /
            (w.triggers.question_patterns.length : ℚ)) ∧
    (∀ kw, w.triggers = ⟨[], [kw], []⟩ → strIn kw q = true →
      calculateMatchScore q w et = 40/100) := by
  have hmain : ∀ (q' : String) (w' : Weakness) (et' : Option String),
      calculateMatchScore q' w' et' =
        (match et' with
         | some s => if s ≠ "" ∧ s ∈ w'.triggers.entity_types then (30/100 : ℚ) else 0
         | none => 0)
        + 40/100 * min 1
            (((w'.triggers.keywords.filter (fun kw => strIn kw q')).length : ℚ) /
              (w'.triggers.keywords.length : ℚ))
        + 30/100 * min 1
            (((w'.triggers.question_patterns.filter (fun p => strIn p q')).length : ℚ) /
              (w'.triggers.question_patterns.length : ℚ)) := by
    intro q' w' et'
    unfold calculateMatchScore
    simp only []
    rw [ite_add_shape, ite_add_shape, trigger_term_eq, trigger_term_eq]
    congr 2
    cases et' with
    | none => rfl
    | some s =>
      simp only [zero_add]
      refine if_congr ?_ rfl rfl
      constructor
      · rintro ⟨h1, _, h3⟩
        exact ⟨h1, h3⟩
      · rintro ⟨h1, h3⟩
        exact ⟨h1, List.ne_nil_of_mem h3, h3⟩
  refine ⟨hmain q w et, ?_⟩
  intro kw htrig hkw
  rw [hmain q w et, htrig]
  cases et with
  | none =>
    simp [List.filter, hkw]
  | some s =>
    simp [List.filter, hkw]

/-- C3 counterexample: at question `"q"`, a weakness whose
`triggers.entity_types` is `[""]`, and `entity_type = some ""` (a
provided entity type that is a member), the source scores `0` while the
claim's formula (entity bonus for any provided member) gives `0.30`. -/
theorem C3_counterexample :
    calculateMatchScore "q" fixWEnt (some "") ≠ claimC3Score "q" fixWEnt (some "") := by
  with_unfolding_all decide

/-- Witness for C3: the keyword-only scenario weakness scores exactly
`0.40` on the scenario question. -/
theorem C3_witness :
    calculateMatchScore "糖尿病有什么症状" fixW1 none = 40/100 :=
  (C3_match_score_formula "糖尿病有什么症状" fixW1 none).2 "糖尿病" rfl (by decide)

/-! ### C1 — tiered routing decision -/

/-- C1: for every engine state, question, optional entity type and
`min_confidence`: the decision carries the matcher's result; when the
matcher returned a non-empty list, `use_rag = true`,
`rag_confidence = 0.85`, `routing_tier = "weakness"`, and `rag_reason`
contains the first matched weakness's id; when it returned `[]`,
`(use_rag, rag_reason, rag_confidence)` is exactly `should_use_rag`'s
result and the tier is `"rag"`/`"baseline"` by `use_rag`. -/
theorem C1_routing_decision (E : Engine) (q : String) (et : Option String)
    (mc : ℚ) :
    (getRoutingDecision E q et mc).weakness_patterns =
      matchWeaknesses E.weaknesses q et E.weaknessTopK E.weaknessMinFrequency ∧
    (∀ w rest,
      matchWeaknesses E.weaknesses q et E.weaknessTopK E.weaknessMinFrequency =
        w :: rest →
      (getRoutingDecision E q et mc).use_rag = true ∧
      (getRoutingDecision E q et mc).rag_confidence = 85/100 ∧
      (getRoutingDecision E q et mc).routing_tier = "weakness" ∧
      strIn w.weakness_id (getRoutingDecision E q et mc).rag_reason = true) ∧
    (matchWeaknesses E.weaknesses q et E.weaknessTopK E.weaknessMinFrequency = [] →
      ((getRoutingDecision E q et mc).use_rag,
       (getRoutingDecision E q et mc).rag_reason,
       (getRoutingDecision E q et mc).rag_confidence) = shouldUseRag E q mc ∧
      (getRoutingDecision E q et mc).routing_tier =
        (if (shouldUseRag E q mc).1 then "rag" else "baseline")) := by
  refine ⟨?_, ?_, ?_⟩
  · simp [getRoutingDecision]
  · intro w rest hw
    refine ⟨?_, ?_, ?_, ?_⟩ <;>
      simp [getRoutingDecision, hw, strIn_append_left]
  · intro hw
    constructor
    · simp [getRoutingDecision, hw]
    · simp [getRoutingDecision, hw]

/-- Witness for C1: on the concrete engine, the scenario question hits
weakness `W1`, so the decision routes through the weakness tier with
confidence `0.85`. -/
theorem C1_witness :
    (getRoutingDecision fixEngine "糖尿病有什么症状" none (7/10)).routing_tier =
      "weakness" ∧
    (getRoutingDecision fixEngine "糖尿病有什么症状" none (7/10)).rag_confidence =
      85/100 :=
  have h := (C1_routing_decision fixEngine "糖尿病有什么症状" none (7/10)).2.1
    (mkWeaknessMatch fixW1 (40/100)) []
    (by with_unfolding_all decide)
  ⟨h.2.2.1, h.2.1⟩

/-! ### C2 — heuristic RAG gate cascade -/

theorem pyTake_length (n : Nat) (s : String) :
    (pyTake n s).length = min n s.length := by
  unfold pyTake
  simp

/-- Strategy 4's per-entity test, rephrased as the claim words it: the
3-code-point prefix of an entity of length ≥ 3 occurs in the question
and is not one of the three blocklisted generic words.  (The source's
extra `len(prefix) >= 2` check is vacuous: the prefix always has exactly
3 code points.) -/
theorem partialEntityMatch_iff (q e : String) :
    partialEntityMatch q e = true ↔
      3 ≤ e.length ∧ strIn (pyTake 3 e) q = true ∧
        pyTake 3 e ∉ (["检查", "手术", "疫苗"] : List String) := by
  unfold partialEntityMatch
  by_cases h3 : e.length ≥ 3
  · have hmin : min 3 e.length = 3 := Nat.min_eq_left h3
    have hlen : (pyTake (min 3 e.length) e).length = 3 := by
      rw [hmin, pyTake_length, Nat.min_eq_left h3]
    rw [if_pos h3, hmin]
    simp only [Bool.and_eq_true, Bool.not_eq_true']
    constructor
    · rintro ⟨⟨-, h2⟩, h4⟩
      refine ⟨h3, h2, ?_⟩
      intro hmem
      simp [hmem] at h4
    · rintro ⟨-, h2, h4⟩
      refine ⟨⟨?_, h2⟩, ?_⟩
      · rw [hmin] at hlen
        simp [hlen]
      · simp [h4]
  · rw [if_neg h3]
    constructor
    · intro h
      exact absurd h (by simp)
    · rintro ⟨h, -⟩
      exact absurd h h3

/-- C2: `should_use_rag` is the first-match-wins cascade of the claim:
its result never depends on `min_confidence`; its confidence is always
one of `{0.95, 0.90, 0.75, 0.65, 0.60, 0.50}`; and each cascade stage
fires exactly when all earlier stages failed. -/
theorem C2_should_use_rag_cascade (E : Engine) (q : String) (mc : ℚ) :
    (∀ mc', shouldUseRag E q mc' = shouldUseRag E q mc) ∧
    (shouldUseRag E q mc).2.2 ∈
      ([95/100, 90/100, 75/100, 65/100, 60/100, 50/100] : List ℚ) ∧
    ((∃ e ∈ E.allEntities, strIn e q = true) →
      ∃ e ∈ E.allEntities, strIn e q = true ∧
        shouldUseRag E q mc = (true, "Exact match: '" ++ e ++ "'", 95/100)) ∧
    ((∀ e ∈ E.allEntities, strIn e q = false) →
     (∃ o ∈ E.oodKeywords, strIn o q = true) →
      ∃ o ∈ E.oodKeywords, strIn o q = true ∧
        shouldUseRag E q mc = (false, "Known OOD topic: '" ++ o ++ "'", 90/100)) ∧
    ((∀ e ∈ E.allEntities, strIn e q = false) →
     (∀ o ∈ E.oodKeywords, strIn o q = false) →
     2 ≤ (E.categoryKeywords.filter
            (fun ck => ck.2.any (fun kw => strIn kw q))).length →
      (shouldUseRag E q mc).1 = true ∧ (shouldUseRag E q mc).2.2 = 75/100) ∧
    ((∀ e ∈ E.allEntities, strIn e q = false) →
     (∀ o ∈ E.oodKeywords, strIn o q = false) →
     (E.categoryKeywords.filter
        (fun ck => ck.2.any (fun kw => strIn kw q))).length = 1 →
      (shouldUseRag E q mc).1 = true ∧ (shouldUseRag E q mc).2.2 = 65/100) ∧
    ((∀ e ∈ E.allEntities, strIn e q = false) →
     (∀ o ∈ E.oodKeywords, strIn o q = false) →
     (E.categoryKeywords.filter
        (fun ck => ck.2.any (fun kw => strIn kw q))) = [] →
     (∃ e ∈ E.allEntities, 3 ≤ e.length ∧ strIn (pyTake 3 e) q = true ∧
        pyTake 3 e ∉ (["检查", "手术", "疫苗"] : List String)) →
      (shouldUseRag E q mc).1 = true ∧ (shouldUseRag E q mc).2.2 = 60/100) ∧
    ((∀ e ∈ E.allEntities, strIn e q = false) →
     (∀ o ∈ E.oodKeywords, strIn o q = false) →
     (E.categoryKeywords.filter
        (fun ck => ck.2.any (fun kw => strIn kw q))) = [] →
     (∀ e ∈ E.allEntities, ¬(3 ≤ e.length ∧ strIn (pyTake 3 e) q = true ∧
        pyTake 3 e ∉ (["检查", "手术", "疫苗"] : List String))) →
      shouldUseRag E q mc =
        (true, "Uncertain - defer to threshold filter", 50/100)) := by
  refine ⟨fun mc' => rfl, ?_⟩
  cases hent : E.allEntities.find? (fun e => strIn e q) with
  | some e =>
    have hmem := List.mem_of_find?_eq_some hent
    have hp := List.find?_some hent
    have hnoent : ¬(∀ e' ∈ E.allEntities, strIn e' q = false) := by
      intro hall
      simp [hall e hmem] at hp
    refine ⟨?_, ?_, ?_, ?_, ?_, ?_, ?_⟩
    · simp [shouldUseRag, hent]
    · intro _
      exact ⟨e, hmem, hp, by simp [shouldUseRag, hent]⟩
    all_goals (intro hall; exact absurd hall hnoent)
  | none =>
    have hnoent : ∀ e' ∈ E.allEntities, strIn e' q = false := by
      intro e' he'
      have := List.find?_eq_none.mp hent e' he'
      simpa using this
    cases hood : E.oodKeywords.find? (fun o => strIn o q) with
    | some o =>
      have homem := List.mem_of_find?_eq_some hood
      have hop := List.find?_some hood
      have hnoood : ¬(∀ o' ∈ E.oodKeywords, strIn o' q = false) := by
        intro hall
        simp [hall o homem] at hop
      refine ⟨?_, ?_, ?_, ?_, ?_, ?_, ?_⟩
      · simp [shouldUseRag, hent, hood]
      · rintro ⟨e', he', hs⟩
        simp [hnoent e' he'] at hs
      · intro _ _
        exact ⟨o, homem, hop, by simp [shouldUseRag, hent, hood]⟩
      all_goals (intro _ hall; exact absurd hall hnoood)
    | none =>
      have hnoood : ∀ o' ∈ E.oodKeywords, strIn o' q = false := by
        intro o' ho'
        have := List.find?_eq_none.mp hood o' ho'
        simpa using this
      have hent_exfalso :
          ∀ {P : Prop}, (∃ e' ∈ E.allEntities, strIn e' q = true) → P := by
        rintro P ⟨e', he', hs⟩
        simp [hnoent e' he'] at hs
      by_cases h2 : 2 ≤ (E.categoryKeywords.filter
          (fun ck => ck.2.any (fun kw => strIn kw q))).length
      · refine ⟨?_, ?_, ?_, ?_, ?_, ?_, ?_⟩
        · simp [shouldUseRag, hent, hood, h2]
        · exact hent_exfalso
        · rintro _ ⟨o', ho', hs⟩
          simp [hnoood o' ho'] at hs
        · intro _ _ _
          simp [shouldUseRag, hent, hood, h2]
        · intro _ _ h1
          omega
        · intro _ _ h0
          rw [h0] at h2
          simp at h2
        · intro _ _ h0
          rw [h0] at h2
          simp at h2
      · by_cases h1 : (E.categoryKeywords.filter
            (fun ck => ck.2.any (fun kw => strIn kw q))).length = 1
        · refine ⟨?_, ?_, ?_, ?_, ?_, ?_, ?_⟩
          · simp [shouldUseRag, hent, hood, h2, h1]
          · exact hent_exfalso
          · rintro _ ⟨o', ho', hs⟩
            simp [hnoood o' ho'] at hs
          · intro _ _ hge2
            exact absurd hge2 h2
          · intro _ _ _
            simp [shouldUseRag, hent, hood, h2, h1]
          · intro _ _ h0
            rw [h0] at h1
            simp at h1
          · intro _ _ h0
            rw [h0] at h1
            simp at h1
        · have h0 : (E.categoryKeywords.filter
              (fun ck => ck.2.any (fun kw => strIn kw q))) = [] := by
            rw [← List.length_eq_zero]
            omega
          cases hpart : E.allEntities.find? (fun e => partialEntityMatch q e) with
          | some e =>
            have hpmem := List.mem_of_find?_eq_some hpart
            have hpp := List.find?_some hpart
            refine ⟨?_, ?_, ?_, ?_, ?_, ?_, ?_⟩
            · simp [shouldUseRag, hent, hood, h2, h1, hpart]
            · exact hent_exfalso
            · rintro _ ⟨o', ho', hs⟩
              simp [hnoood o' ho'] at hs
            · intro _ _ hge2
              exact absurd hge2 h2
            · intro _ _ heq1
              exact absurd heq1 h1
            · intro _ _ _ _
              simp [shouldUseRag, hent, hood, h2, h1, hpart]
            · intro _ _ _ hnone
              exact absurd ((partialEntityMatch_iff q e).mp hpp) (hnone e hpmem)
          | none =>
            have hnopart : ∀ e' ∈ E.allEntities, partialEntityMatch q e' = false := by
              intro e' he'
              have := List.find?_eq_none.mp hpart e' he'
              simpa using this
            refine ⟨?_, ?_, ?_, ?_, ?_, ?_, ?_⟩
            · simp [shouldUseRag, hent, hood, h2, h1, hpart]
            · exact hent_exfalso
            · rintro _ ⟨o', ho', hs⟩
              simp [hnoood o' ho'] at hs
            · intro _ _ hge2
              exact absurd hge2 h2
            · intro _ _ heq1
              exact absurd heq1 h1
            · rintro _ _ _ ⟨e', he', hcond⟩
              have : partialEntityMatch q e' = true :=
                (partialEntityMatch_iff q e').mpr hcond
              simp [hnopart e' he'] at this
            · intro _ _ _ _
              simp [shouldUseRag, hent, hood, h2, h1, hpart]

/-- Witness for C2: on the concrete engine, the scenario question matches
the entity "糖尿病" exactly, so the gate answers with confidence `0.95`
and the exact-match reason. -/
theorem C2_witness :
    (shouldUseRag fixEngine "糖尿病有什么症状" (7/10)).2.2 = 95/100 ∧
    (shouldUseRag fixEngine "糖尿病有什么症状" (7/10)).1 = true := by
  obtain ⟨e, -, -, h⟩ :=
    (C2_should_use_rag_cascade fixEngine "糖尿病有什么症状" (7/10)).2.2.1
      ⟨"糖尿病", by decide, by decide⟩
  rw [h]
  exact ⟨rfl, rfl⟩

/-! ### C6 — index row count matches pattern list length -/

/-- C6: both mutation paths preserve «row count of the index =
`len(patterns)`», including the runs in which the embedding call fails
(`embed _ = none`), the batch embedding degrades items to zero vectors,
or the index `add` raises on a dimension mismatch after `self.index` was
already assigned.  (`_save` failures never touch in-memory state.) -/
theorem C6_row_count_invariant (embed : String → Option Vec) (dim : Nat)
    (st : PatternStorage) (p : PatternRec) (ps : List PatternRec)
    (h : rowCount st.index = st.patterns.length) :
    rowCount (addPattern embed st p).index =
      (addPattern embed st p).patterns.length ∧
    rowCount (addPatternsBatch embed dim st ps).index =
      (addPatternsBatch embed dim st ps).patterns.length := by
  constructor
  · cases hemb : embed p.description with
    | none => simpa [addPattern, hemb] using h
    | some emb =>
      cases hidx : st.index with
      | none =>
        have hp : st.patterns.length = 0 := by
          simpa [rowCount, hidx] using h.symm
        simp [addPattern, hemb, hidx, rowCount, hp]
      | some i =>
        have hi : i.rows.length = st.patterns.length := by
          simpa [rowCount, hidx] using h
        by_cases hdim : emb.length = i.dim
        · simp [addPattern, hemb, hidx, hdim, rowCount, hi]
        · simpa [addPattern, hemb, hidx, hdim, rowCount] using hi
  · have hlen : (embedBatch embed dim (ps.map (·.description))).length =
        ps.length := by
      simp [embedBatch]
    unfold addPatternsBatch
    by_cases hps : ps.isEmpty
    · simpa [hps] using h
    · simp only [hps, Bool.false_eq_true, if_false]
      cases hidx : st.index with
      | none =>
        have hp : st.patterns.length = 0 := by
          simpa [rowCount, hidx] using h.symm
        split
        · simp [rowCount, hp, hlen]
        · simp [rowCount, hp]
      | some i =>
        have hi : i.rows.length = st.patterns.length := by
          simpa [rowCount, hidx] using h
        split
        · simp [rowCount, hi, hlen]
        · simp [rowCount, hi]

/-- Witness for C6: adding one pattern to the empty store (embedder
returning a 1-dimensional vector) keeps row count equal to the pattern
count. -/
theorem C6_witness :
    rowCount (addPattern (fun _ => some [0])
        ⟨[], none, 0⟩ fixPattern).index =
      (addPattern (fun _ => some [0]) ⟨[], none, 0⟩ fixPattern).patterns.length :=
  (C6_row_count_invariant (fun _ => some [0]) 1 ⟨[], none, 0⟩ fixPattern []
    rfl).1

/-! ### C4 — weakness pre-filter, exclusion, sort and truncation -/

theorem matchGE_trans (a b c : WeaknessMatch) (hab : matchGE a b = true)
    (hbc : matchGE b c = true) : matchGE a c = true := by
  simp only [matchGE, decide_eq_true_eq] at hab hbc ⊢
  rcases hab with hab | ⟨hab, habf⟩ <;> rcases hbc with hbc | ⟨hbc, hbcf⟩
  · exact Or.inl (lt_trans hbc hab)
  · exact Or.inl (hbc ▸ hab)
  · exact Or.inl (hab ▸ hbc)
  · exact Or.inr ⟨hbc.trans hab, hbcf.trans habf⟩

theorem matchGE_total (a b : WeaknessMatch) :
    (matchGE a b || matchGE b a) = true := by
  simp only [matchGE, Bool.or_eq_true, decide_eq_true_eq]
  rcases lt_trichotomy a.match_score b.match_score with h | h | h
  · exact Or.inr (Or.inl h)
  · rcases le_total a.frequency b.frequency with hf | hf
    · exact Or.inr (Or.inr ⟨h, hf⟩)
    · exact Or.inl (Or.inr ⟨h.symm, hf⟩)
  · exact Or.inl (Or.inl h)

/-- C4: `match_weaknesses` returns at most `top_k` entries; every entry
arises from a table weakness that passed the frequency pre-filter and
scored strictly above zero, carrying exactly that weakness's fields and
score; the result is sorted descending by the `(match_score, frequency)`
pair; and with `min_frequency = 1.1` (above every frequency of a table
whose frequencies lie in `[0,1]`) the result is empty. -/
theorem C4_match_weaknesses (tbl : List Weakness) (q : String)
    (et : Option String) (k : Nat) (minf : ℚ) :
    (matchWeaknesses tbl q et k minf).length ≤ k ∧
    (∀ m ∈ matchWeaknesses tbl q et k minf,
      ∃ w ∈ tbl, ¬(w.frequency < minf) ∧
        0 < calculateMatchScore q w et ∧
        m = mkWeaknessMatch w (calculateMatchScore q w et)) ∧
    (matchWeaknesses tbl q et k minf).Pairwise (fun a b => matchGE a b = true) ∧
    ((∀ w ∈ tbl, w.frequency ≤ 1) → matchWeaknesses tbl q et k (11/10) = []) := by
  have hdef : ∀ mf, matchWeaknesses tbl q et k mf =
      ((tbl.filterMap (fun w =>
        if w.frequency < mf then none
        else
          let score := calculateMatchScore q w et
          if score > 0 then some (mkWeaknessMatch w score) else none)).mergeSort
            matchGE).take k := fun _ => rfl
  refine ⟨?_, ?_, ?_, ?_⟩
  · rw [hdef, List.length_take]
    exact min_le_left _ _
  · intro m hm
    rw [hdef] at hm
    have hm2 := (List.take_sublist _ _).mem hm
    rw [List.mem_mergeSort] at hm2
    obtain ⟨w, hw, hf⟩ := List.mem_filterMap.mp hm2
    refine ⟨w, hw, ?_⟩
    by_cases hfreq : w.frequency < minf
    · simp [hfreq] at hf
    · by_cases hsc : calculateMatchScore q w et > 0
      · simp only [hfreq, if_false, hsc, if_true, Option.some.injEq] at hf
        exact ⟨hfreq, hsc, hf.symm⟩
      · simp [hfreq, hsc] at hf
  · rw [hdef]
    exact ((List.sorted_mergeSort matchGE_trans matchGE_total _).sublist
      (List.take_sublist _ _)).imp (fun h => h)
  · intro hle
    rw [hdef]
    have : tbl.filterMap (fun w =>
        if w.frequency < (11/10 : ℚ) then none
        else
          let score := calculateMatchScore q w et
          if score > 0 then some (mkWeaknessMatch w score) else none) = [] := by
      rw [List.filterMap_eq_nil_iff]
      intro w hw
      have : w.frequency < (11/10 : ℚ) := lt_of_le_of_lt (hle w hw) (by norm_num)
      simp [this]
    rw [this]
    simp

/-- Witness for C4: on the one-weakness fixture table (frequency `0.5`),
`min_frequency = 1.1` yields the empty match list. -/
theorem C4_witness :
    matchWeaknesses [fixW1] "糖尿病有什么症状" none 2 (11/10) = [] :=
  (C4_match_weaknesses [fixW1] "糖尿病有什么症状" none 2 (15/100)).2.2.2
    (by intro w hw; simp at hw; subst hw; with_unfolding_all decide)

/-! ### C5 — retrieval filtering, ordering and truncation -/

theorem l2sq_nonneg (a b : Vec) : 0 ≤ l2sq a b := by
  apply List.sum_nonneg
  intro x hx
  obtain ⟨p, -, rfl⟩ := List.mem_map.mp hx
  positivity

/-- With `k ≤ ntotal` the FAISS result needs no `-1` padding. -/
theorem faissSearch_no_padding (idx : FaissIndex) (q : Vec) (k : Nat)
    (h : k ≤ idx.rows.length) :
    faissSearch idx q k =
      ((idx.rows.enum.map (fun p => (l2sq q p.2, (p.1 : Int)))).mergeSort
        distLE).take k := by
  unfold faissSearch
  have hlen : ((idx.rows.enum.map
      (fun p => (l2sq q p.2, (p.1 : Int)))).mergeSort distLE).length =
      idx.rows.length := by
    simp
  have h0 : k - ((idx.rows.enum.map
      (fun p => (l2sq q p.2, (p.1 : Int)))).mergeSort distLE).length = 0 := by
    rw [hlen]
    omega
  simp [h0]
  omega

/-- Every unpadded FAISS candidate is the distance/label pair of an
actual index row. -/
theorem faissSearch_mem (idx : FaissIndex) (q : Vec) (k : Nat)
    (h : k ≤ idx.rows.length) {d : ℚ} {i : Int}
    (hmem : (d, i) ∈ faissSearch idx q k) :
    ∃ n : Nat, i = (n : Int) ∧ ∃ vec, idx.rows.get? n = some vec ∧
      d = l2sq q vec := by
  rw [faissSearch_no_padding idx q k h] at hmem
  have hmem2 := (List.take_sublist _ _).mem hmem
  rw [List.mem_mergeSort] at hmem2
  obtain ⟨⟨n, vec⟩, hnv, heq⟩ := List.mem_map.mp hmem2
  obtain ⟨hd, hi⟩ := Prod.mk.injEq .. ▸ heq
  refine ⟨n, hi.symm, vec, ?_, hd.symm⟩
  have := List.mk_mem_enum_iff_getElem?.mp hnv
  simpa [List.get?_eq_getElem?] using this

theorem distLE_trans (a b c : ℚ × Int) (hab : distLE a b = true)
    (hbc : distLE b c = true) : distLE a c = true := by
  simp only [distLE, decide_eq_true_eq] at *
  exact le_trans hab hbc

theorem distLE_total (a b : ℚ × Int) : (distLE a b || distLE b a) = true := by
  simp only [distLE, Bool.or_eq_true, decide_eq_true_eq]
  exact le_total a.1 b.1

/-- Distances of the (unpadded) candidate list are non-decreasing. -/
theorem faissSearch_sorted (idx : FaissIndex) (q : Vec) (k : Nat)
    (h : k ≤ idx.rows.length) :
    (faissSearch idx q k).Pairwise (fun a b => a.1 ≤ b.1) := by
  rw [faissSearch_no_padding idx q k h]
  have hs := List.sorted_mergeSort distLE_trans distLE_total
    (idx.rows.enum.map (fun p => (l2sq q p.2, (p.1 : Int))))
  refine (hs.sublist (List.take_sublist _ _)).imp ?_
  intro a b hab
  simpa [distLE] using hab

/-- Everything the candidate loop returns is either carried over from
the accumulator or a candidate that survived every filter. -/
theorem retrieveLoop_mem (pats : List PatternRec) (thr : ℚ)
    (cat : Option String) (minSev k : Nat) :
    ∀ (cands : List (ℚ × Int)) (acc : List RetrievedPattern)
      (r : RetrievedPattern),
      r ∈ retrieveLoop pats thr cat minSev k cands acc →
      r ∈ acc ∨
      ∃ d i pat, (d, i) ∈ cands ∧ pyGet? pats i = some pat ∧
        r = ⟨pat, 1 / (1 + d)⟩ ∧
        ¬(0 < thr ∧ 1 / (1 + d) < thr) ∧
        catSkipB cat (pat.category.getD "general") = false ∧
        ¬(severityOrder (pat.severity.getD "minor") < minSev) := by
  intro cands
  induction cands with
  | nil =>
    intro acc r h
    exact Or.inl h
  | cons c tl ih =>
    obtain ⟨d, i⟩ := c
    intro acc r h
    rw [retrieveLoop] at h
    by_cases hi : i < (pats.length : Int)
    · rw [if_pos hi] at h
      cases hg : pyGet? pats i with
      | none =>
        rw [hg] at h
        exact Or.inl h
      | some pat =>
        rw [hg] at h
        simp only at h
        by_cases h1 : 0 < thr ∧ 1 / (1 + d) < thr
        · rw [if_pos h1] at h
          rcases ih acc r h with hl | ⟨d', i', pat', hm, hrest⟩
          · exact Or.inl hl
          · exact Or.inr ⟨d', i', pat', List.mem_cons_of_mem _ hm, hrest⟩
        · rw [if_neg h1] at h
          by_cases h2 : catSkipB cat (pat.category.getD "general") = true
          · rw [if_pos h2] at h
            rcases ih acc r h with hl | ⟨d', i', pat', hm, hrest⟩
            · exact Or.inl hl
            · exact Or.inr ⟨d', i', pat', List.mem_cons_of_mem _ hm, hrest⟩
          · rw [if_neg h2] at h
            by_cases h3 : severityOrder (pat.severity.getD "minor") < minSev
            · rw [if_pos h3] at h
              rcases ih acc r h with hl | ⟨d', i', pat', hm, hrest⟩
              · exact Or.inl hl
              · exact Or.inr ⟨d', i', pat', List.mem_cons_of_mem _ hm, hrest⟩
            · rw [if_neg h3] at h
              have haccept : r ∈ acc ++ [(⟨pat, 1 / (1 + d)⟩ : RetrievedPattern)] →
                  r ∈ acc ∨
                  ∃ d' i' pat', (d', i') ∈ (d, i) :: tl ∧
                    pyGet? pats i' = some pat' ∧
                    r = ⟨pat', 1 / (1 + d')⟩ ∧
                    ¬(0 < thr ∧ 1 / (1 + d') < thr) ∧
                    catSkipB cat (pat'.category.getD "general") = false ∧
                    ¬(severityOrder (pat'.severity.getD "minor") < minSev) := by
                intro hr
                rcases List.mem_append.mp hr with hl | hx
                · exact Or.inl hl
                · refine Or.inr ⟨d, i, pat, List.mem_cons_self _ _, hg, ?_, h1, ?_, h3⟩
                  · simpa using hx
                  · simpa using Bool.of_not_eq_true h2
              by_cases h4 : k ≤ (acc ++ [(⟨pat, 1 / (1 + d)⟩ : RetrievedPattern)]).length
              · rw [if_pos h4] at h
                exact haccept h
              · rw [if_neg h4] at h
                rcases ih _ r h with hl | ⟨d', i', pat', hm, hrest⟩
                · exact haccept hl
                · exact Or.inr ⟨d', i', pat', List.mem_cons_of_mem _ hm, hrest⟩
    · rw [if_neg hi] at h
      rcases ih acc r h with hl | ⟨d', i', pat', hm, hrest⟩
      · exact Or.inl hl
      · exact Or.inr ⟨d', i', pat', List.mem_cons_of_mem _ hm, hrest⟩

/-- The candidate loop never grows past `k` accepted results. -/
theorem retrieveLoop_length (pats : List PatternRec) (thr : ℚ)
    (cat : Option String) (minSev k : Nat) (hk : 0 < k) :
    ∀ (cands : List (ℚ × Int)) (acc : List RetrievedPattern),
      acc.length < k →
      (retrieveLoop pats thr cat minSev k cands acc).length ≤ k := by
  intro cands
  induction cands with
  | nil =>
    intro acc hacc
    rw [retrieveLoop]
    exact Nat.le_of_lt hacc
  | cons c tl ih =>
    obtain ⟨d, i⟩ := c
    intro acc hacc
    rw [retrieveLoop]
    by_cases hi : i < (pats.length : Int)
    · rw [if_pos hi]
      cases hg : pyGet? pats i with
      | none => exact Nat.le_of_lt hacc
      | some pat =>
        simp only
        by_cases h1 : 0 < thr ∧ 1 / (1 + d) < thr
        · rw [if_pos h1]
          exact ih acc hacc
        · rw [if_neg h1]
          by_cases h2 : catSkipB cat (pat.category.getD "general") = true
          · rw [if_pos h2]
            exact ih acc hacc
          · rw [if_neg h2]
            by_cases h3 : severityOrder (pat.severity.getD "minor") < minSev
            · rw [if_pos h3]
              exact ih acc hacc
            · rw [if_neg h3]
              by_cases h4 : k ≤ (acc ++ [(⟨pat, 1 / (1 + d)⟩ : RetrievedPattern)]).length
              · rw [if_pos h4]
                simp only [List.length_append, List.length_singleton]
                omega
              · rw [if_neg h4]
                apply ih
                simp only [List.length_append, List.length_singleton] at h4 ⊢
                omega
    · rw [if_neg hi]
      exact ih acc hacc

/-- The candidate loop emits results in candidate order, so relevance
scores are non-increasing whenever candidate distances are non-negative
and non-decreasing. -/
theorem retrieveLoop_pairwise (pats : List PatternRec) (thr : ℚ)
    (cat : Option String) (minSev k : Nat) :
    ∀ (cands : List (ℚ × Int)) (acc : List RetrievedPattern),
      (∀ c ∈ cands, (0 : ℚ) ≤ c.1) →
      cands.Pairwise (fun a b => a.1 ≤ b.1) →
      acc.Pairwise (fun a b => b.relevance_score ≤ a.relevance_score) →
      (∀ r ∈ acc, ∀ c ∈ cands, 1 / (1 + c.1) ≤ r.relevance_score) →
      (retrieveLoop pats thr cat minSev k cands acc).Pairwise
        (fun a b => b.relevance_score ≤ a.relevance_score) := by
  intro cands
  induction cands with
  | nil =>
    intro acc _ _ hacc _
    rw [retrieveLoop]
    exact hacc
  | cons c tl ih =>
    obtain ⟨d, i⟩ := c
    intro acc hnn hsort hacc hbound
    have hnn' : ∀ c ∈ tl, (0 : ℚ) ≤ c.1 :=
      fun c hc => hnn c (List.mem_cons_of_mem _ hc)
    have hsort' := hsort.tail
    have hbound' : ∀ r ∈ acc, ∀ c ∈ tl, 1 / (1 + c.1) ≤ r.relevance_score :=
      fun r hr c hc => hbound r hr c (List.mem_cons_of_mem _ hc)
    have hd0 : (0 : ℚ) ≤ d := hnn _ (List.mem_cons_self _ _)
    have hdpos : (0 : ℚ) < 1 + d := by linarith
    have hdle : ∀ c ∈ tl, d ≤ c.1 := by
      intro c hc
      exact (List.pairwise_cons.mp hsort).1 c hc
    have hrel_le : ∀ c ∈ tl, 1 / (1 + c.1) ≤ 1 / (1 + d) := by
      intro c hc
      apply one_div_le_one_div_of_le hdpos
      linarith [hdle c hc]
    rw [retrieveLoop]
    by_cases hi : i < (pats.length : Int)
    · rw [if_pos hi]
      cases hg : pyGet? pats i with
      | none => exact hacc
      | some pat =>
        simp only
        by_cases h1 : 0 < thr ∧ 1 / (1 + d) < thr
        · rw [if_pos h1]
          exact ih acc hnn' hsort' hacc hbound'
        · rw [if_neg h1]
          by_cases h2 : catSkipB cat (pat.category.getD "general") = true
          · rw [if_pos h2]
            exact ih acc hnn' hsort' hacc hbound'
          · rw [if_neg h2]
            by_cases h3 : severityOrder (pat.severity.getD "minor") < minSev
            · rw [if_pos h3]
              exact ih acc hnn' hsort' hacc hbound'
            · rw [if_neg h3]
              have hacc' : (acc ++ [(⟨pat, 1 / (1 + d)⟩ : RetrievedPattern)]).Pairwise
                  (fun a b => b.relevance_score ≤ a.relevance_score) := by
                rw [List.pairwise_append]
                refine ⟨hacc, List.pairwise_singleton _ _, ?_⟩
                intro a ha b hb
                rw [List.mem_singleton] at hb
                subst hb
                exact hbound a ha _ (List.mem_cons_self _ _)
              by_cases h4 : k ≤ (acc ++ [(⟨pat, 1 / (1 + d)⟩ : RetrievedPattern)]).length
              · rw [if_pos h4]
                exact hacc'
              · rw [if_neg h4]
                apply ih _ hnn' hsort' hacc'
                intro r hr c hc
                rcases List.mem_append.mp hr with hl | hx
                · exact hbound' r hl c hc
                · rw [List.mem_singleton] at hx
                  subst hx
                  exact hrel_le c hc
    · rw [if_neg hi]
      exact ih acc hnn' hsort' hacc hbound'

/-- C5 (amended): every pattern returned by `retrieve_relevant` on a
consistent store (index rows = pattern count) scores
`relevance_score = 1/(1 + L2_distance)` against a stored row and at
least the positive `threshold`; its category is absent, `"general"`, or
the requested one whenever a **non-empty** category is requested; its
severity level is at least `min_severity`'s; at most `k` results are
returned; and they come in the index's ascending-distance candidate
order (relevance non-increasing), never re-sorted. -/
theorem C5_retrieve_relevant_filters (embed : String → Option Vec)
    (st : PatternStorage) (q : String) (k : Nat) (cat : Option String)
    (minSev : String) (t : ℚ) (ht : 0 < t)
    (hwf : rowCount st.index = st.patterns.length) :
    (retrieveRelevant embed st q k cat minSev (some t)).length ≤ k ∧
    (∀ r ∈ retrieveRelevant embed st q k cat minSev (some t),
      t ≤ r.relevance_score) ∧
    (∀ c, cat = some c → c ≠ "" →
      ∀ r ∈ retrieveRelevant embed st q k cat minSev (some t),
        r.pattern.category = none ∨ r.pattern.category = some "general" ∨
          r.pattern.category = some c) ∧
    (∀ r ∈ retrieveRelevant embed st q k cat minSev (some t),
      severityOrder minSev ≤ severityOrder (r.pattern.severity.getD "minor")) ∧
    (∀ idx, st.index = some idx →
      ∀ r ∈ retrieveRelevant embed st q k cat minSev (some t),
        ∃ qv n pat vec, embed q = some qv ∧ st.patterns.get? n = some pat ∧
          idx.rows.get? n = some vec ∧ r.pattern = pat ∧
          r.relevance_score = 1 / (1 + l2sq qv vec)) ∧
    (retrieveRelevant embed st q k cat minSev (some t)).Pairwise
      (fun a b => b.relevance_score ≤ a.relevance_score) := by
  cases hidx : st.index with
  | none =>
    refine ⟨?_, ?_, ?_, ?_, ?_, ?_⟩ <;> simp [retrieveRelevant, hidx]
  | some idx =>
    by_cases hp : st.patterns.length = 0
    · refine ⟨?_, ?_, ?_, ?_, ?_, ?_⟩ <;> simp [retrieveRelevant, hidx, hp]
    · cases hq : embed q with
      | none =>
        refine ⟨?_, ?_, ?_, ?_, ?_, ?_⟩ <;> simp [retrieveRelevant, hidx, hp, hq]
      | some qv =>
        have hres : retrieveRelevant embed st q k cat minSev (some t) =
            retrieveLoop st.patterns t cat (severityOrder minSev) k
              (faissSearch idx qv (min (k * 3) st.patterns.length)) [] := by
          simp [retrieveRelevant, hidx, hp, hq]
        have hrows : idx.rows.length = st.patterns.length := by
          simpa [rowCount, hidx] using hwf
        have hsk : min (k * 3) st.patterns.length ≤ idx.rows.length := by
          rw [hrows]
          exact min_le_right _ _
        have hprops : ∀ r ∈ retrieveRelevant embed st q k cat minSev (some t),
            ∃ d i pat,
              (d, i) ∈ faissSearch idx qv (min (k * 3) st.patterns.length) ∧
              pyGet? st.patterns i = some pat ∧
              r = ⟨pat, 1 / (1 + d)⟩ ∧
              ¬(0 < t ∧ 1 / (1 + d) < t) ∧
              catSkipB cat (pat.category.getD "general") = false ∧
              ¬(severityOrder (pat.severity.getD "minor") < severityOrder minSev) := by
          intro r hr
          rw [hres] at hr
          rcases retrieveLoop_mem st.patterns t cat (severityOrder minSev) k
            _ [] r hr with hl | h
          · simp at hl
          · exact h
        refine ⟨?_, ?_, ?_, ?_, ?_, ?_⟩
        · rcases Nat.eq_zero_or_pos k with hk | hk
          · subst hk
            have hc : faissSearch idx qv (min (0 * 3) st.patterns.length) = [] := by
              simp [faissSearch]
            rw [hres, hc, retrieveLoop]
            simp
          · rw [hres]
            exact retrieveLoop_length st.patterns t cat (severityOrder minSev) k
              hk _ [] (by simpa using hk)
        · intro r hr
          obtain ⟨d, i, pat, -, -, hrq, hthr, -, -⟩ := hprops r hr
          subst hrq
          simp only
          by_contra hlt
          exact hthr ⟨ht, lt_of_not_le hlt⟩
        · rintro c rfl hc r hr
          obtain ⟨d, i, pat, -, -, hrq, -, hskip, -⟩ := hprops r hr
          subst hrq
          simp only
          have hor : pat.category.getD "general" = c ∨
              pat.category.getD "general" = "general" := by
            by_contra hcon
            push_neg at hcon
            simp [catSkipB, hc, hcon.1, hcon.2] at hskip
          cases hcat : pat.category with
          | none => exact Or.inl rfl
          | some x =>
            rw [hcat, Option.getD_some] at hor
            rcases hor with h | h
            · exact Or.inr (Or.inr (by rw [h]))
            · exact Or.inr (Or.inl (by rw [h]))
        · intro r hr
          obtain ⟨d, i, pat, -, -, hrq, -, -, hsev⟩ := hprops r hr
          subst hrq
          exact Nat.le_of_not_lt hsev
        · rintro idx' hidx' r hr
          rw [Option.some.injEq] at hidx'
          subst hidx'
          obtain ⟨d, i, pat, hcmem, hget, hrq, -, -, -⟩ := hprops r hr
          obtain ⟨n, rfl, vec, hvec, rfl⟩ := faissSearch_mem idx qv _ hsk hcmem
          refine ⟨qv, n, pat, vec, rfl, ?_, hvec, by rw [hrq], by rw [hrq]⟩
          simpa [pyGet?] using hget
        · rw [hres]
          apply retrieveLoop_pairwise
          · intro c hc
            obtain ⟨d', i'⟩ := c
            obtain ⟨n, -, vec, -, rfl⟩ := faissSearch_mem idx qv _ hsk hc
            exact l2sq_nonneg _ _
          · exact faissSearch_sorted idx qv _ hsk
          · exact List.Pairwise.nil
          · intro r hr
            simp at hr

set_option maxRecDepth 100000 in
/-- C5 counterexample: requesting the category `""` (a requested
category under the claim's quantification over every category) returns
the store's single `"surgeries"` pattern — a category that is neither
absent, nor `"general"`, nor equal to the request: Python's truthiness
check `if category and …` silently disables the filter for the empty
string. -/
theorem C5_counterexample :
    retrieveRelevant (fun _ => some [0]) fixStore "q" 1 (some "") "minor"
        (some (1/2)) = [⟨fixPattern, 1⟩] ∧
    fixPattern.category = some "surgeries" := by
  constructor
  · with_unfolding_all decide
  · rfl

/-- Witness for C5: on the consistent one-pattern store with a non-empty
requested category, the theorem's bounds hold. -/
theorem C5_witness :
    (retrieveRelevant (fun _ => some [0]) fixStore "q" 1 (some "vaccines")
        "minor" (some (1/2))).length ≤ 1 ∧
    (∀ r ∈ retrieveRelevant (fun _ => some [0]) fixStore "q" 1 (some "vaccines")
        "minor" (some (1/2)), (1/2 : ℚ) ≤ r.relevance_score) :=
  have h := C5_retrieve_relevant_filters (fun _ => some [0]) fixStore "q" 1
    (some "vaccines") "minor" (1/2) (by with_unfolding_all decide) rfl
  ⟨h.1, h.2.1⟩

/-! ### C7 — vector store search on k exceeding the row count -/

set_option maxRecDepth 4000 in
/-- C7 (bug demonstration): on the concrete one-row store, `search(q, 2)`
returns *two* results.  FAISS pads the missing slot with label `-1` and
distance `FLT_MAX`; the guard `if idx < len(self.metadata)` admits `-1`,
Python negative indexing resolves it to the last row's metadata and
text, and the sentinel `FLT_MAX` — the distance of no stored row — is
reported as that result's distance. -/
theorem C7_search_padding_bug :
    (searchVS (fun _ => [0]) fixVS "q" 2).map (fun l => l.map (·.distance)) =
      some [0, fltMax] ∧
    (searchVS (fun _ => [0]) fixVS "q" 2).map (fun l => l.map (·.content)) =
      some ["t0", "t0"] ∧
    (∀ vec ∈ (({ dim := 1, rows := [[0]] } : FaissIndex)).rows,
      l2sq [0] vec ≠ fltMax) := by
  refine ⟨?_, ?_, ?_⟩
  · with_unfolding_all rfl
  · with_unfolding_all rfl
  · intro vec hv
    rw [List.mem_singleton] at hv
    subst hv
    have h0 : l2sq [0] [0] = 0 := by norm_num [l2sq]
    rw [h0]
    norm_num [fltMax]

/-! ### C10 — retrieval never mutates the stored dicts -/

theorem set_append_length (l : List α) (x y : α) :
    (l ++ [x]).set l.length y = l ++ [y] := by
  induction l with
  | nil => rfl
  | cons a t ih => simp [List.set, ih]

/-- The heap-view candidate loop only allocates: the incoming heap is a
prefix of the outgoing heap, and every returned address is either carried
over or freshly allocated (at or past the old heap end). -/
theorem retrieveLoopH_frame (patternAddrs : List Nat) (thr : ℚ)
    (cat : Option String) (minSev k : Nat) :
    ∀ (cands : List (ℚ × Int)) (heap : List PyDict) (acc : List Nat),
      heap <+: (retrieveLoopH patternAddrs thr cat minSev k cands heap acc).1 ∧
      (∀ a ∈ (retrieveLoopH patternAddrs thr cat minSev k cands heap acc).2,
        a ∈ acc ∨ heap.length ≤ a) := by
  intro cands
  induction cands with
  | nil =>
    intro heap acc
    rw [retrieveLoopH]
    exact ⟨List.prefix_refl _, fun a ha => Or.inl ha⟩
  | cons c tl ih =>
    obtain ⟨d, i⟩ := c
    intro heap acc
    rw [retrieveLoopH]
    by_cases hi : i < (patternAddrs.length : Int)
    · rw [if_pos hi]
      cases hg : pyGet? patternAddrs i with
      | none => exact ⟨List.prefix_refl _, fun a ha => Or.inl ha⟩
      | some addr =>
        simp only
        cases hcell : heap.get? addr with
        | none => exact ⟨List.prefix_refl _, fun a ha => Or.inl ha⟩
        | some dct =>
          simp only
          rw [set_append_length]
          have hpre1 : heap <+: heap ++ [dictSet dct "relevance_score"
              (.num (1 / (1 + d)))] := List.prefix_append _ _
          have hlen1 : heap.length ≤ (heap ++ [dictSet dct "relevance_score"
              (.num (1 / (1 + d)))]).length := by
            simp
          by_cases h1 : 0 < thr ∧ 1 / (1 + d) < thr
          · rw [if_pos h1]
            obtain ⟨hih1, hih2⟩ := ih _ acc
            refine ⟨hpre1.trans hih1, fun a ha => ?_⟩
            rcases hih2 a ha with h | h
            · exact Or.inl h
            · exact Or.inr (le_trans hlen1 h)
          · rw [if_neg h1]
            by_cases h2 : catSkipV cat (dictCategory dct) = true
            · rw [if_pos h2]
              obtain ⟨hih1, hih2⟩ := ih _ acc
              refine ⟨hpre1.trans hih1, fun a ha => ?_⟩
              rcases hih2 a ha with h | h
              · exact Or.inl h
              · exact Or.inr (le_trans hlen1 h)
            · rw [if_neg h2]
              by_cases h3 : dictSevLevel dct < minSev
              · rw [if_pos h3]
                obtain ⟨hih1, hih2⟩ := ih _ acc
                refine ⟨hpre1.trans hih1, fun a ha => ?_⟩
                rcases hih2 a ha with h | h
                · exact Or.inl h
                · exact Or.inr (le_trans hlen1 h)
              · rw [if_neg h3]
                by_cases h4 : k ≤ (acc ++ [heap.length]).length
                · rw [if_pos h4]
                  refine ⟨hpre1, fun a ha => ?_⟩
                  rcases List.mem_append.mp ha with h | h
                  · exact Or.inl h
                  · rw [List.mem_singleton] at h
                    exact Or.inr (le_of_eq h.symm)
                · rw [if_neg h4]
                  obtain ⟨hih1, hih2⟩ := ih _ (acc ++ [heap.length])
                  refine ⟨hpre1.trans hih1, fun a ha => ?_⟩
                  rcases hih2 a ha with h | h
                  · rcases List.mem_append.mp h with h' | h'
                    · exact Or.inl h'
                    · rw [List.mem_singleton] at h'
                      exact Or.inr (le_of_eq h'.symm)
                  · exact Or.inr (le_trans hlen1 h)
    · rw [if_neg hi]
      exact ih heap acc

/-- C10: `retrieve_relevant` leaves `self.patterns` and every stored
dict cell untouched: the address list is unchanged, the old heap is a
prefix of the new heap (old cells bitwise identical), and every returned
dict is a freshly allocated per-call copy (address at or past the old
heap end) — `relevance_score` is written only into those copies. -/
theorem C10_retrieve_relevant_frame (embed : String → Option Vec)
    (st : StorageH) (q : String) (k : Nat) (cat : Option String)
    (minSev : String) (thr : Option ℚ)
    (hvalid : ∀ a ∈ st.patternAddrs, a < st.heap.length) :
    (retrieveRelevantH embed st q k cat minSev thr).1.patternAddrs =
      st.patternAddrs ∧
    st.heap <+: (retrieveRelevantH embed st q k cat minSev thr).1.heap ∧
    (∀ a ∈ st.patternAddrs,
      (retrieveRelevantH embed st q k cat minSev thr).1.heap.get? a =
        st.heap.get? a) ∧
    (∀ a ∈ (retrieveRelevantH embed st q k cat minSev thr).2,
      st.heap.length ≤ a) := by
  have hkey : st.heap <+: (retrieveRelevantH embed st q k cat minSev thr).1.heap ∧
      (retrieveRelevantH embed st q k cat minSev thr).1.patternAddrs =
        st.patternAddrs ∧
      (∀ a ∈ (retrieveRelevantH embed st q k cat minSev thr).2,
        st.heap.length ≤ a) := by
    cases hidx : st.index with
    | none =>
      simp [retrieveRelevantH, hidx]
    | some idx =>
      by_cases hp : st.patternAddrs.length = 0
      · simp [retrieveRelevantH, hidx, hp]
      · cases hq : embed q with
        | none => simp [retrieveRelevantH, hidx, hp, hq]
        | some qv =>
          have hres : retrieveRelevantH embed st q k cat minSev thr =
              ({ st with heap := (retrieveLoopH st.patternAddrs
                  (thr.getD st.ragRelevanceThreshold) cat
                  (severityOrder minSev) k
                  (faissSearch idx qv (min (k * 3) st.patternAddrs.length))
                  st.heap []).1 },
               (retrieveLoopH st.patternAddrs
                  (thr.getD st.ragRelevanceThreshold) cat
                  (severityOrder minSev) k
                  (faissSearch idx qv (min (k * 3) st.patternAddrs.length))
                  st.heap []).2) := by
            simp [retrieveRelevantH, hidx, hp, hq]
          obtain ⟨hf1, hf2⟩ := retrieveLoopH_frame st.patternAddrs
            (thr.getD st.ragRelevanceThreshold) cat (severityOrder minSev) k
            (faissSearch idx qv (min (k * 3) st.patternAddrs.length))
            st.heap []
          rw [hres]
          refine ⟨hf1, rfl, fun a ha => ?_⟩
          rcases hf2 a ha with h | h
          · simp at h
          · exact h
  obtain ⟨hpre, haddrs, hfresh⟩ := hkey
  refine ⟨haddrs, hpre, fun a ha => ?_, hfresh⟩
  obtain ⟨tail, htail⟩ := hpre
  rw [← htail, List.get?_eq_getElem?, List.get?_eq_getElem?,
    List.getElem?_append_left (hvalid a ha)]

/-- Witness for C10: on the concrete heap-view store, a retrieval leaves
the pattern address list and the stored cell at address `0` unchanged. -/
theorem C10_witness :
    (retrieveRelevantH (fun _ => some [0]) fixStoreH "q" 1 none "minor"
        (some (1/2))).1.patternAddrs = fixStoreH.patternAddrs ∧
    (retrieveRelevantH (fun _ => some [0]) fixStoreH "q" 1 none "minor"
        (some (1/2))).1.heap.get? 0 = fixStoreH.heap.get? 0 :=
  have h := C10_retrieve_relevant_frame (fun _ => some [0]) fixStoreH "q" 1
    none "minor" (some (1/2)) (by decide)
  ⟨h.1, h.2.2.1 0 (by decide)⟩

end ZeroTrain
